import Mathlib

/-!
Shallow embedding of the repository's data-cleaning helpers
(homework3/src/utils.py, homework6/src/cleaning.py, homework13/src/utils.py,
project/src/utils.py) and proofs about them.

Tabular cells are modelled as `Option ℚ`, with `none` playing the role of
pandas' missing value (NaN): arithmetic propagates `none`, comparisons against
`none` are false, and reductions (min, max, median, quantile) skip `none`
entries exactly as pandas reductions skip NaN.
-/

namespace Bootcamp

/-- A tabular cell: `none` models pandas' missing value (NaN). -/
abbrev Val := Option ℚ

/-- Cell subtraction with missing-value propagation (NaN arithmetic). -/
def vSub : Val → Val → Val
  | some a, some b => some (a - b)
  | _, _ => none

/-- Cell division with missing-value propagation.  A zero divisor yields an
undefined cell; in this development a zero divisor only ever arises together
with a zero dividend, where IEEE arithmetic gives NaN. -/
def vDiv : Val → Val → Val
  | some a, some b => if b = 0 then none else some (a / b)
  | _, _ => none

/-- The present (non-missing) entries of a column. -/
def present (xs : List Val) : List ℚ := xs.filterMap id

/-- pandas `Series.min`: minimum over present entries, NaN when there are none. -/
def colMin (xs : List Val) : Val := (present xs).min?

/-- pandas `Series.max`: maximum over present entries, NaN when there are none. -/
def colMax (xs : List Val) : Val := (present xs).max?

/-- pandas `Series.median`: the middle of the sorted present entries (the mean
of the two middle ones for an even count), NaN when no entry is present. -/
def median (xs : List Val) : Val :=
  let vs := (present xs).insertionSort (fun a b => a ≤ b)
  let n := vs.length
  if n = 0 then none
  else if n % 2 = 1 then some (vs.getD (n / 2) 0)
  else some ((vs.getD (n / 2 - 1) 0 + vs.getD (n / 2) 0) / 2)

/-- pandas `Series.fillna`: replaces missing entries by `v` when `v` is
present; `fillna` with a NaN argument leaves the column unchanged. -/
def fillna (xs : List Val) (v : Val) : List Val :=
  match v with
  | none => xs
  | some m => xs.map (fun o => some (o.getD m))

namespace HW6

/-!
homework/homework6/src/cleaning.py.  A DataFrame is modelled as its list of
columns, addressed by position; `required_columns` become column indices.
The functions there assign `df[column] = ...` and then `return df`: they
mutate the caller's table and return the very same object.  Each embedded
function therefore returns a pair `(return value, state of the caller's
argument after the call)`.
-/

/-- homework6 model: the DataFrame is its list of columns. -/
abbrev Df := List (List Val)

/-- Column selection `df[column]`. -/
def getCol (df : Df) (c : ℕ) : List Val := df.getD c []

/-- One in-place assignment `df[column] = F(df[column])` per listed column,
performed in order. -/
def applyCols (F : List Val → List Val) (df : Df) (cols : List ℕ) : Df :=
  cols.foldl (fun d c => d.set c (F (getCol d c))) df

/-- `df[column].fillna(df[column].median())`. -/
def fillMedianCol (xs : List Val) : List Val := fillna xs (median xs)

/-- homework6 `fill_missing_median(df, required_columns)`: for each listed
column, assigns `df[column] = df[column].fillna(df[column].median())`, then
returns `df`.  Result: `(return value, caller's argument after the call)`. -/
def fill_missing_median (df : Df) (required_columns : List ℕ) : Df × Df :=
  let d := applyCols fillMedianCol df required_columns
  (d, d)

/-- One column of homework6 `normalize_data`:
`(df[column] - col_min) / (col_max - col_min)`. -/
def normCol (xs : List Val) : List Val :=
  let col_min := colMin xs
  let col_max := colMax xs
  xs.map (fun x => vDiv (vSub x col_min) (vSub col_max col_min))

/-- homework6 `normalize_data(df, required_columns)`: in-place min-max scaling
of each listed column, then `return df`.  Result:
`(return value, caller's argument after the call)`. -/
def normalize_data (df : Df) (required_columns : List ℕ) : Df × Df :=
  let d := applyCols normCol df required_columns
  (d, d)

theorem length_set_applyCols (F : List Val → List Val) (df : Df) (cols : List ℕ) :
    (applyCols F df cols).length = df.length := by
  induction cols generalizing df with
  | nil => rfl
  | cons c rest ih =>
    simp only [applyCols, List.foldl_cons] at *
    rw [ih]
    exact List.length_set ..

theorem getCol_set_self (df : Df) (c : ℕ) (v : List Val) (h : c < df.length) :
    getCol (df.set c v) c = v := by
  simp [getCol, List.getD_eq_getElem?_getD, List.getElem?_set_self, h]

theorem getCol_set_ne (df : Df) (c c' : ℕ) (v : List Val) (h : c' ≠ c) :
    getCol (df.set c' v) c = getCol df c := by
  simp [getCol, List.getD_eq_getElem?_getD, List.getElem?_set_ne, h]

/-- Processing listed columns in order touches each column independently:
column `c` of the result is `F` iterated as many times as `c` is listed. -/
theorem getCol_applyCols (F : List Val → List Val) (df : Df) (cols : List ℕ)
    (c : ℕ) (h : c < df.length) :
    getCol (applyCols F df cols) c = F^[cols.count c] (getCol df c) := by
  induction cols generalizing df with
  | nil => rfl
  | cons c' rest ih =>
    simp only [applyCols, List.foldl_cons] at *
    rcases eq_or_ne c' c with rfl | hne
    · rw [List.count_cons_self, Function.iterate_succ_apply,
        ih (df.set c' (F (getCol df c'))) (by simpa using h),
        getCol_set_self df c' (F (getCol df c')) h]
    · rw [List.count_cons_of_ne (Ne.symm hne),
        ih (df.set c' (F (getCol df c'))) (by simpa using h),
        getCol_set_ne df c c' (F (getCol df c')) hne]

theorem iterate_of_idem {α : Type} (f : α → α) (hf : ∀ x, f (f x) = f x)
    (n : ℕ) (x : α) : f^[n] (f x) = f x := by
  induction n with
  | zero => rfl
  | succ k ih => rw [Function.iterate_succ_apply, hf, ih]

end HW6

theorem median_eq_some (xs : List Val) (h : present xs ≠ []) :
    ∃ m, median xs = some m := by
  have hlen : ((present xs).insertionSort (fun a b => a ≤ b)).length
      = (present xs).length := (List.perm_insertionSort _ (present xs)).length_eq
  have hn : ((present xs).insertionSort (fun a b => a ≤ b)).length ≠ 0 := by
    rw [hlen]
    exact fun h0 => h (List.length_eq_zero.mp h0)
  simp only [median]
  rw [if_neg hn]
  by_cases h2 : ((present xs).insertionSort (fun a b => a ≤ b)).length % 2 = 1
  · exact ⟨_, by rw [if_pos h2]⟩
  · exact ⟨_, by rw [if_neg h2]⟩

theorem fillna_length (xs : List Val) (v : Val) : (fillna xs v).length = xs.length := by
  cases v with
  | none => rfl
  | some m => simp [fillna]

theorem fillna_all_present (ys : List Val) (h : ∀ y ∈ ys, y ≠ none) (w : Val) :
    fillna ys w = ys := by
  cases w with
  | none => rfl
  | some m =>
    simp only [fillna]
    induction ys with
    | nil => rfl
    | cons y ys ih =>
      have hy : y ≠ none := h y (List.mem_cons_self y ys)
      rw [List.map_cons, ih (fun z hz => h z (List.mem_cons_of_mem y hz))]
      cases y with
      | none => exact absurd rfl hy
      | some v => rfl

theorem mem_fillna_some_ne_none (xs : List Val) (m : ℚ) :
    ∀ x ∈ fillna xs (some m), x ≠ none := by
  intro x hx
  simp only [fillna, List.mem_map] at hx
  obtain ⟨o, _, rfl⟩ := hx
  exact Option.some_ne_none _

namespace HW6

theorem fillMedianCol_idem (xs : List Val) :
    fillMedianCol (fillMedianCol xs) = fillMedianCol xs := by
  unfold fillMedianCol
  cases hm : median xs with
  | none =>
    have h1 : fillna xs none = xs := rfl
    simp only [h1, hm]
  | some m =>
    exact fillna_all_present _ (mem_fillna_some_ne_none xs m) _

end HW6

/-- C6: on every listed column that has at least one present entry,
`fill_missing_median` leaves no missing entry, and each previously missing
entry now equals that column's median. -/
theorem fill_missing_median_complete (df : HW6.Df) (cols : List ℕ)
    (hlt : ∀ c ∈ cols, c < df.length)
    (hp : ∀ c ∈ cols, present (HW6.getCol df c) ≠ []) :
    ∀ c ∈ cols,
      (HW6.getCol (HW6.fill_missing_median df cols).1 c).length
          = (HW6.getCol df c).length ∧
      (∀ x ∈ HW6.getCol (HW6.fill_missing_median df cols).1 c, x ≠ none) ∧
      (∀ i : ℕ, (HW6.getCol df c)[i]? = some none →
        (HW6.getCol (HW6.fill_missing_median df cols).1 c)[i]?
          = some (median (HW6.getCol df c))) := by
  intro c hc
  have hpos : 0 < cols.count c := List.count_pos_iff.mpr hc
  have hget : HW6.getCol (HW6.fill_missing_median df cols).1 c
      = HW6.fillMedianCol (HW6.getCol df c) := by
    show HW6.getCol (HW6.applyCols HW6.fillMedianCol df cols) c = _
    rw [HW6.getCol_applyCols _ _ _ _ (hlt c hc)]
    obtain ⟨k, hk⟩ := Nat.exists_eq_succ_of_ne_zero hpos.ne'
    rw [hk, Function.iterate_succ_apply,
      HW6.iterate_of_idem _ HW6.fillMedianCol_idem]
  obtain ⟨m, hm⟩ := median_eq_some _ (hp c hc)
  refine ⟨?_, ?_, ?_⟩
  · rw [hget]
    exact fillna_length _ _
  · rw [hget]
    unfold HW6.fillMedianCol
    rw [hm]
    exact mem_fillna_some_ne_none _ m
  · intro i hi
    rw [hget]
    unfold HW6.fillMedianCol
    rw [hm]
    simp only [fillna]
    rw [List.getElem?_map, hi]
    rfl

/-- Witness for C6: filling `[1, NaN, 3]` puts the median 2 at the hole. -/
theorem fill_missing_median_complete_witness :
    (HW6.getCol (HW6.fill_missing_median [[some 1, none, some 3]] [0]).1 0)[1]?
      = some (median (HW6.getCol [[some 1, none, some 3]] 0)) :=
  (fill_missing_median_complete [[some 1, none, some 3]] [0] (by decide) (by decide)
    0 (by decide)).2.2 1 (by decide)

instance : Std.Antisymm ((· : ℚ) ≤ ·) := ⟨fun h1 h2 => le_antisymm h1 h2⟩

theorem rat_min?_eq_some_iff {l : List ℚ} {a : ℚ} :
    l.min? = some a ↔ a ∈ l ∧ ∀ b ∈ l, a ≤ b :=
  List.min?_eq_some_iff (fun a => le_refl a) (fun a b => min_choice a b)
    (fun _ _ _ => le_min_iff)

theorem rat_max?_eq_some_iff {l : List ℚ} {a : ℚ} :
    l.max? = some a ↔ a ∈ l ∧ ∀ b ∈ l, b ≤ a :=
  List.max?_eq_some_iff (fun a => le_refl a) (fun a b => max_choice a b)
    (fun _ _ _ => max_le_iff)

namespace HW6

theorem normCol_length (xs : List Val) : (normCol xs).length = xs.length := by
  simp [normCol]

theorem iterate_normCol_length (n : ℕ) (xs : List Val) :
    (normCol^[n] xs).length = xs.length := by
  induction n generalizing xs with
  | zero => rfl
  | succ k ih => rw [Function.iterate_succ_apply, ih, normCol_length]

/-- When a column's min equals its max, every normalized cell is undefined. -/
theorem normCol_of_min_eq_max (xs : List Val) (m : ℚ)
    (hmin : colMin xs = some m) (hmax : colMax xs = some m) :
    ∀ x ∈ normCol xs, x = none := by
  intro x hx
  simp only [normCol, List.mem_map] at hx
  obtain ⟨y, _, rfl⟩ := hx
  rw [hmin, hmax]
  cases y with
  | none => rfl
  | some v =>
    show vDiv (some (v - m)) (some (m - m)) = none
    simp [vDiv, sub_self]

theorem normCol_allNone (xs : List Val) (h : ∀ x ∈ xs, x = none) :
    ∀ x ∈ normCol xs, x = none := by
  intro x hx
  simp only [normCol, List.mem_map] at hx
  obtain ⟨y, hy, rfl⟩ := hx
  rw [h y hy]
  rfl

theorem iterate_normCol_allNone (n : ℕ) (xs : List Val) (h : ∀ x ∈ xs, x = none) :
    ∀ x ∈ normCol^[n] xs, x = none := by
  induction n generalizing xs with
  | zero => exact h
  | succ k ih =>
    rw [Function.iterate_succ_apply]
    exact ih _ (normCol_allNone xs h)

end HW6

/-- C10: homework6 `normalize_data` divides by `col_max - col_min` without a
guard; on a listed column whose minimum equals its maximum the denominator is
zero and the column comes back entirely undefined (NaN), not normalized. -/
theorem normalize_data_zero_range_nan (df : HW6.Df) (cols : List ℕ) (c : ℕ) (m : ℚ)
    (hc : c ∈ cols) (hlt : c < df.length)
    (hmin : colMin (HW6.getCol df c) = some m)
    (hmax : colMax (HW6.getCol df c) = some m) :
    HW6.getCol (HW6.normalize_data df cols).1 c
      = List.replicate (HW6.getCol df c).length none := by
  have hget : HW6.getCol (HW6.normalize_data df cols).1 c
      = HW6.normCol^[cols.count c] (HW6.getCol df c) := by
    show HW6.getCol (HW6.applyCols HW6.normCol df cols) c = _
    exact HW6.getCol_applyCols _ _ _ _ hlt
  rw [hget, List.eq_replicate_iff]
  obtain ⟨k, hk⟩ := Nat.exists_eq_succ_of_ne_zero (List.count_pos_iff.mpr hc).ne'
  refine ⟨by rw [HW6.iterate_normCol_length], ?_⟩
  rw [hk, Function.iterate_succ_apply]
  exact HW6.iterate_normCol_allNone k _ (HW6.normCol_of_min_eq_max _ m hmin hmax)

/-- Witness for C10: a constant column `[2, 2]` normalizes to `[NaN, NaN]`. -/
theorem normalize_data_zero_range_nan_witness :
    HW6.getCol (HW6.normalize_data [[some 2, some 2]] [0]).1 0
      = List.replicate 2 none :=
  normalize_data_zero_range_nan [[some 2, some 2]] [0] 0 2 (by decide) (by decide)
    (by decide) (by decide)

theorem present_map (g : ℚ → ℚ) (xs : List Val) :
    present (xs.map (Option.map g)) = (present xs).map g := by
  simp only [present, List.filterMap_map, List.map_filterMap]
  rfl

theorem min?_map_monotone (g : ℚ → ℚ) (hg : Monotone g) (l : List ℚ) :
    (l.map g).min? = l.min?.map g := by
  cases l with
  | nil => rfl
  | cons a as =>
    simp only [List.map_cons, List.min?_cons']
    show some (List.foldl min (g a) (as.map g)) = some (g (List.foldl min a as))
    congr 1
    induction as generalizing a with
    | nil => rfl
    | cons b bs ih =>
      simp only [List.map_cons, List.foldl_cons]
      rw [← hg.map_min]
      exact ih (min a b)

theorem max?_map_monotone (g : ℚ → ℚ) (hg : Monotone g) (l : List ℚ) :
    (l.map g).max? = l.max?.map g := by
  cases l with
  | nil => rfl
  | cons a as =>
    simp only [List.map_cons, List.max?_cons']
    show some (List.foldl max (g a) (as.map g)) = some (g (List.foldl max a as))
    congr 1
    induction as generalizing a with
    | nil => rfl
    | cons b bs ih =>
      simp only [List.map_cons, List.foldl_cons]
      rw [← hg.map_max]
      exact ih (max a b)

namespace HW6

/-- With min and max present and a nonzero range, one normalization pass is
the elementwise affine map `v ↦ (v - mn) / (mx - mn)`. -/
theorem normCol_eq_map (xs : List Val) (mn mx : ℚ)
    (hmin : colMin xs = some mn) (hmax : colMax xs = some mx) (hne : mx - mn ≠ 0) :
    normCol xs = xs.map (Option.map (fun v => (v - mn) / (mx - mn))) := by
  simp only [normCol, hmin, hmax]
  refine congrArg (fun f => xs.map f) (funext fun y => ?_)
  cases y with
  | none => rfl
  | some v =>
    show vDiv (some (v - mn)) (some (mx - mn)) = some ((v - mn) / (mx - mn))
    simp [vDiv, hne]

theorem monotone_affine (mn mx : ℚ) (hlt : mn < mx) :
    Monotone (fun v : ℚ => (v - mn) / (mx - mn)) := by
  intro a b hab
  have hpos : 0 < mx - mn := sub_pos.mpr hlt
  exact (div_le_div_iff_of_pos_right hpos).mpr (sub_le_sub_right hab mn)

theorem colMin_normCol (xs : List Val) (mn mx : ℚ)
    (hmin : colMin xs = some mn) (hmax : colMax xs = some mx) (hlt : mn < mx) :
    colMin (normCol xs) = some 0 := by
  rw [normCol_eq_map xs mn mx hmin hmax (sub_ne_zero.mpr hlt.ne')]
  unfold colMin
  rw [present_map, min?_map_monotone _ (monotone_affine mn mx hlt)]
  unfold colMin at hmin
  rw [hmin]
  show some ((mn - mn) / (mx - mn)) = some 0
  rw [sub_self, zero_div]

theorem colMax_normCol (xs : List Val) (mn mx : ℚ)
    (hmin : colMin xs = some mn) (hmax : colMax xs = some mx) (hlt : mn < mx) :
    colMax (normCol xs) = some 1 := by
  rw [normCol_eq_map xs mn mx hmin hmax (sub_ne_zero.mpr hlt.ne')]
  unfold colMax
  rw [present_map, max?_map_monotone _ (monotone_affine mn mx hlt)]
  unfold colMax at hmax
  rw [hmax]
  show some ((mx - mn) / (mx - mn)) = some 1
  rw [div_self (sub_ne_zero.mpr hlt.ne')]

/-- A second normalization pass on a column already scaled to `[0, 1]` is the
identity map, so `normCol` is idempotent on columns with a nonzero range. -/
theorem normCol_idem_of_lt (xs : List Val) (mn mx : ℚ)
    (hmin : colMin xs = some mn) (hmax : colMax xs = some mx) (hlt : mn < mx) :
    normCol (normCol xs) = normCol xs := by
  rw [normCol_eq_map (normCol xs) 0 1 (colMin_normCol xs mn mx hmin hmax hlt)
    (colMax_normCol xs mn mx hmin hmax hlt) (by norm_num)]
  have hid : (fun v : ℚ => (v - 0) / (1 - 0)) = id := funext fun v => by simp
  rw [hid, Option.map_id, List.map_id]

theorem iterate_fixed_of {α : Type} (f : α → α) (x : α) (hx : f (f x) = f x)
    (n : ℕ) : f^[n] (f x) = f x := by
  induction n with
  | zero => rfl
  | succ k ih => rw [Function.iterate_succ_apply', ih, hx]

end HW6

/-- Helper for C7: on every listed column whose maximum strictly exceeds its
minimum, homework6 `normalize_data` sends each present value into `[0, 1]`,
the former minimum to `0` and the former maximum to `1`. -/
theorem hw6_normalize_unit_interval (df : HW6.Df) (cols : List ℕ) (c : ℕ) (mn mx : ℚ)
    (hc : c ∈ cols) (hlen : c < df.length)
    (hmin : colMin (HW6.getCol df c) = some mn)
    (hmax : colMax (HW6.getCol df c) = some mx)
    (hlt : mn < mx) :
    ∀ i : ℕ, ∀ x : ℚ, (HW6.getCol df c)[i]? = some (some x) →
      ∃ y : ℚ, (HW6.getCol (HW6.normalize_data df cols).1 c)[i]? = some (some y) ∧
        0 ≤ y ∧ y ≤ 1 ∧ (x = mn → y = 0) ∧ (x = mx → y = 1) := by
  intro i x hix
  have hne : mx - mn ≠ 0 := sub_ne_zero.mpr hlt.ne'
  have hpos : 0 < mx - mn := sub_pos.mpr hlt
  have hget : HW6.getCol (HW6.normalize_data df cols).1 c
      = HW6.normCol (HW6.getCol df c) := by
    show HW6.getCol (HW6.applyCols HW6.normCol df cols) c = _
    rw [HW6.getCol_applyCols _ _ _ _ hlen]
    obtain ⟨k, hk⟩ := Nat.exists_eq_succ_of_ne_zero (List.count_pos_iff.mpr hc).ne'
    rw [hk, Function.iterate_succ_apply]
    exact HW6.iterate_fixed_of _ _ (HW6.normCol_idem_of_lt _ mn mx hmin hmax hlt) k
  have hxmem : x ∈ present (HW6.getCol df c) :=
    List.mem_filterMap.mpr ⟨some x, List.getElem?_mem hix, rfl⟩
  have hxmn : mn ≤ x := (rat_min?_eq_some_iff.mp hmin).2 x hxmem
  have hxmx : x ≤ mx := (rat_max?_eq_some_iff.mp hmax).2 x hxmem
  refine ⟨(x - mn) / (mx - mn), ?_, ?_, ?_, ?_, ?_⟩
  · rw [hget, HW6.normCol_eq_map _ mn mx hmin hmax hne, List.getElem?_map, hix]
    rfl
  · exact div_nonneg (sub_nonneg.mpr hxmn) hpos.le
  · exact (div_le_one hpos).mpr (sub_le_sub_right hxmx mn)
  · intro hx
    rw [hx, sub_self, zero_div]
  · intro hx
    rw [hx, div_self hne]

/-- pandas sample standard deviation (ddof = 1) of a list of present values;
the square root is taken by the abstract argument `sqrt`; NaN when fewer than
two values are given. -/
def sampleStd (sqrt : ℚ → ℚ) (vs : List ℚ) : Val :=
  if vs.length < 2 then none
  else
    let n : ℚ := vs.length
    let mean := vs.sum / n
    some (sqrt ((vs.map (fun v => (v - mean) ^ 2)).sum / (n - 1)))

namespace HW13

/-!
homework/homework13/src/utils.py.  `joblib.load('../model/model.pkl')` reads
the fitted model from disk; the embedding passes that piece of external state
in as `loaded_model`, a function from one feature row to its predicted value
(`loaded_model.predict([features])[0]`).
-/

/-- Python `round(x, 2)`: round half to even at two decimal places. -/
def round2 (x : ℚ) : ℚ :=
  let y := x * 100
  let f := ⌊y⌋
  let frac := y - f
  let r : ℤ :=
    if frac < 1 / 2 then f
    else if 1 / 2 < frac then f + 1
    else if f % 2 = 0 then f else f + 1
  (r : ℚ) / 100

/-- homework13 `predict(features, round_prediction=False)`. -/
def predict (loaded_model : List ℚ → ℚ) (features : List ℚ)
    (round_prediction : Bool) : ℚ :=
  let pred := loaded_model features
  if round_prediction then round2 pred else pred

end HW13

namespace HW3

/-!
homework/homework3/src/utils.py.  `get_summary_stats` reads the grouping and
target column names from standard input with `input(...)`; the embedding
passes those two stdin lines in as explicit arguments.
-/

/-- homework3 model: a DataFrame with named columns, row-major. -/
structure Df where
  names : List String
  rows : List (List Val)
deriving DecidableEq

/-- Position of a named column; `none` is a pandas `KeyError`. -/
def colIdx (df : Df) (name : String) : Option ℕ :=
  df.names.findIdx? (fun s => s == name)

/-- `df.groupby(g)[t].agg(['min','max','std'])`: group keys are the distinct
present values of column `g` in ascending order (pandas sorts group keys and
drops missing ones); each summary row holds the key and the min, max and
sample standard deviation of the group's present target entries. -/
def groupby_agg (sqrt : ℚ → ℚ) (df : Df) (g t : ℕ) : Df :=
  let keys := (present (df.rows.map (fun r => r.getD g none))).dedup.insertionSort
    (fun a b => a ≤ b)
  { names := [df.names.getD g "", "min", "max", "std"],
    rows := keys.map (fun k =>
      let vs := present ((df.rows.filter
        (fun r => r.getD g none == some k)).map (fun r => r.getD t none))
      [some k, vs.min?, vs.max?, sampleStd sqrt vs]) }

/-- `DataFrame.reset_index(inplace=True)` mutates in place and returns `None`. -/
def reset_index_inplace (_ : Df) : Option Df := none

/-- homework3 `get_summary_stats(df)`: reads two column names from stdin
(`input1`, `input2` here), groups and aggregates, but binds `summary` to the
value of `reset_index(inplace=True)`; a name absent from the table is a
pandas `KeyError`. -/
def get_summary_stats (sqrt : ℚ → ℚ) (df : Df) (input1 input2 : String) :
    Except String (Option Df) :=
  let group_column := input1
  let target_column := input2
  match colIdx df group_column, colIdx df target_column with
  | some g, some t =>
    let summary := reset_index_inplace (groupby_agg sqrt df g t)
    Except.ok summary
  | _, _ => Except.error "KeyError"

end HW3

/-- C1 (code bug): at a concrete one-column table with valid stdin answers,
`get_summary_stats` returns `None` — `summary` is bound to the result of
`reset_index(inplace=True)`, which is `None` — rather than the grouped
summary table the caller expects. -/
theorem get_summary_stats_returns_none :
    HW3.get_summary_stats (fun q => q) ⟨["a"], [[some 1]]⟩ "a" "a"
      = Except.ok none := rfl

/-- C3 counterexample: two `predict` calls with equal explicit arguments but
different models on disk return different values, so the result does not
depend on the explicit arguments alone. -/
theorem stateless_counterexample :
    HW13.predict (fun _ => 0) [3] false ≠ HW13.predict (fun _ => 1) [3] false := by
  norm_num [HW13.predict]

/-- C3 amended: `predict`'s value is the disk-loaded model's output on the
features (rounded to two decimals on request), and `get_summary_stats`
consumes two stdin lines, returning `None` whenever both name a column; the
cleaning helpers, in contrast, are plain functions of their arguments. -/
theorem stateless_amended :
    (∀ (loaded_model : List ℚ → ℚ) (features : List ℚ),
      HW13.predict loaded_model features false = loaded_model features ∧
      HW13.predict loaded_model features true = HW13.round2 (loaded_model features)) ∧
    (∀ (sqrt : ℚ → ℚ) (df : HW3.Df) (input1 input2 : String) (g t : ℕ),
      HW3.colIdx df input1 = some g → HW3.colIdx df input2 = some t →
      HW3.get_summary_stats sqrt df input1 input2 = Except.ok none) := by
  refine ⟨fun loaded_model features => ⟨rfl, rfl⟩, ?_⟩
  intro sqrt df input1 input2 g t hg ht
  simp [HW3.get_summary_stats, hg, ht, HW3.reset_index_inplace]

/-- Witness for the amended C3 at a concrete table and stdin. -/
theorem stateless_amended_witness :
    HW3.get_summary_stats (fun q => q) ⟨["a"], [[some 1]]⟩ "a" "a"
      = Except.ok none ∧ HW13.predict (fun _ => 5) [1, 2] false = 5 :=
  ⟨stateless_amended.2 (fun q => q) ⟨["a"], [[some 1]]⟩ "a" "a" 0 0
      (by decide) (by decide),
    (stateless_amended.1 (fun _ => 5) [1, 2]).1⟩

/-- Cell addition with missing-value propagation. -/
def vAdd : Val → Val → Val
  | some a, some b => some (a + b)
  | _, _ => none

/-- Cell multiplication with missing-value propagation. -/
def vMul : Val → Val → Val
  | some a, some b => some (a * b)
  | _, _ => none

/-- Cell absolute value with missing-value propagation. -/
def vAbs : Val → Val
  | some a => some |a|
  | none => none

/-- Float-style `≤`: any comparison involving NaN is false. -/
def vle (a b : Val) : Bool :=
  match a, b with
  | some x, some y => decide (x ≤ y)
  | _, _ => false

/-- Float-style `<`: any comparison involving NaN is false. -/
def vlt (a b : Val) : Bool :=
  match a, b with
  | some x, some y => decide (x < y)
  | _, _ => false

/-- pandas `Series.quantile(q)` with the default linear interpolation, over
the present entries: with the `n` present values sorted ascending, the
quantile sits at position `q·(n−1)`, interpolated between the neighbouring
order statistics; NaN when no entry is present. -/
def quantile (xs : List Val) (q : ℚ) : Val :=
  let vs := (present xs).insertionSort (fun a b => a ≤ b)
  let n := vs.length
  if n = 0 then none
  else
    let pos := q * ((n : ℚ) - 1)
    let i := (⌊pos⌋).toNat
    let frac := pos - ⌊pos⌋
    some (vs.getD i 0 + frac * (vs.getD (i + 1) 0 - vs.getD i 0))

namespace Project

/-!
project/src/utils.py.  A DataFrame is modelled with named columns and
row-major data; the `columns` arguments stay lists of names, looked up with
`col in df.columns` as in the source.  Functions that work on `df.copy()`
leave the caller's table unchanged.
-/

/-- project model: a DataFrame with named columns, row-major data. -/
structure Df where
  names : List String
  rows : List (List Val)
deriving DecidableEq

/-- `name in df.columns`, returned as the column's position. -/
def colIdx (df : Df) (name : String) : Option ℕ :=
  df.names.findIdx? (fun s => s == name)

/-- The regex `[^a-zA-Z0-9_]` removal from `clean_column_names`. -/
def stripSpecial (s : String) : String :=
  String.mk (s.data.filter (fun ch => ch.isAlphanum || ch == '_'))

/-- project `clean_column_names(df, lowercase=True, replace_spaces=True,
remove_special_chars=True)`: works on `df_clean = df.copy()`, rewriting the
copy's column names; the caller's table is untouched.  Result:
`(return value, caller's argument after the call)`. -/
def clean_column_names (df : Df)
    (lowercase replace_spaces remove_special_chars : Bool) : Df × Df :=
  let df_clean := df
  let df_clean := if lowercase then
    { df_clean with names := df_clean.names.map (fun s => s.toLower) }
  else df_clean
  let df_clean := if replace_spaces then
    { df_clean with names := df_clean.names.map (fun s => s.replace " " "_") }
  else df_clean
  let df_clean := if remove_special_chars then
    { df_clean with names := df_clean.names.map stripSpecial }
  else df_clean
  (df_clean, df)

/-- One `'iqr'` pass of `remove_outliers` over column `j` of the current
rows: `Q1`, `Q3` and `IQR = Q3 − Q1` are computed on the surviving rows, and
a row is kept when its value lies in `[Q1 − threshold·IQR, Q3 +
threshold·IQR]`; a missing value fails both comparisons, as NaN does. -/
def iqrStep (rows : List (List Val)) (j : ℕ) (threshold : ℚ) : List (List Val) :=
  let col := rows.map (fun r => r.getD j none)
  let q1 := quantile col (1 / 4)
  let q3 := quantile col (3 / 4)
  let iqr := vSub q3 q1
  let lower_bound := vSub q1 (vMul (some threshold) iqr)
  let upper_bound := vAdd q3 (vMul (some threshold) iqr)
  rows.filter (fun r =>
    vle lower_bound (r.getD j none) && vle (r.getD j none) upper_bound)

/-- One `'zscore'` pass of `remove_outliers`: keep the rows with
`|x − mean| / std < threshold` (sample std, abstract square root). -/
def zscoreStep (sqrt : ℚ → ℚ) (rows : List (List Val)) (j : ℕ) (threshold : ℚ) :
    List (List Val) :=
  let col := rows.map (fun r => r.getD j none)
  let mean := if present col = [] then none
    else some ((present col).sum / ((present col).length : ℚ))
  let std := sampleStd sqrt (present col)
  rows.filter (fun r =>
    vlt (vDiv (vAbs (vSub (r.getD j none) mean)) std) (some threshold))

/-- project `remove_outliers(df, columns, method='iqr', threshold=1.5)`:
processes the listed column names in order over the rows surviving the
earlier columns, skipping names absent from the table and unknown methods. -/
def remove_outliers (sqrt : ℚ → ℚ) (df : Df) (columns : List String)
    (method : String) (threshold : ℚ) : Df :=
  { df with rows := columns.foldl (fun rows col =>
      match colIdx df col with
      | none => rows
      | some j =>
        if method = "iqr" then iqrStep rows j threshold
        else if method = "zscore" then zscoreStep sqrt rows j threshold
        else rows) df.rows }

/-- `df[col] = f(df[col])` elementwise on a named column of `df.copy()`,
skipped when the name is absent. -/
def mapColByName (df : Df) (name : String) (f : Val → Val) : Df :=
  match colIdx df name with
  | none => df
  | some j => { df with rows := df.rows.map (fun r => r.set j (f (r.getD j none))) }

/-- project `log_transform(df, columns, add_constant=1)`: replaces each
listed column by `np.log(column + add_constant)` elementwise on `df.copy()`;
`np.log` is the abstract argument `log` (applied only where the entry is
present — a missing cell stays missing). -/
def log_transform (log : ℚ → ℚ) (df : Df) (columns : List String)
    (add_constant : ℚ) : Df :=
  columns.foldl (fun d col =>
    mapColByName d col (Option.map (fun v => log (v + add_constant)))) df

/-- project `box_cox_transform(df, columns, lambda_param=0.5)`: with zero
`lambda_param` each listed column gets `np.log`; otherwise
`(column ** lambda_param − 1) / lambda_param`, with `**` the abstract
argument `pow`. -/
def box_cox_transform (log : ℚ → ℚ) (pow : ℚ → ℚ → ℚ) (df : Df)
    (columns : List String) (lambda_param : ℚ) : Df :=
  columns.foldl (fun d col =>
    if lambda_param = 0 then
      mapColByName d col (Option.map (fun v => log v))
    else
      mapColByName d col
        (Option.map (fun v => (pow v lambda_param - 1) / lambda_param))) df

end Project

/-- C2 counterexample: homework6 `fill_missing_median` writes through to the
caller's table — after the call the argument has the median where the hole
was, so the original table is changed. -/
theorem returns_new_table_counterexample :
    (HW6.fill_missing_median [[some 1, none, some 3]] [0]).2
      ≠ [[some 1, none, some 3]] := by
  norm_num [HW6.fill_missing_median, HW6.applyCols, HW6.getCol, HW6.fillMedianCol,
    median, fillna, present, List.filterMap_cons, List.filterMap_nil,
    List.insertionSort, List.orderedInsert]
  simp

/-- C2 amended: `clean_column_names` works on a copy and leaves the caller's
table unchanged, but homework6 `fill_missing_median` and `normalize_data`
update the caller's table in place and return that very table. -/
theorem returns_new_table_amended :
    (∀ (df : Project.Df) (lowercase replace_spaces remove_special_chars : Bool),
      (Project.clean_column_names df lowercase replace_spaces
        remove_special_chars).2 = df) ∧
    (∀ (df : HW6.Df) (cols : List ℕ),
      (HW6.fill_missing_median df cols).1 = (HW6.fill_missing_median df cols).2) ∧
    (∀ (df : HW6.Df) (cols : List ℕ),
      (HW6.normalize_data df cols).1 = (HW6.normalize_data df cols).2) :=
  ⟨fun _ _ _ _ => rfl, fun _ _ => rfl, fun _ _ => rfl⟩

/-- C9: with `lambda_param = 0` and `add_constant = 0`, `box_cox_transform`
and `log_transform` return the same table: each listed column becomes its
elementwise natural logarithm. -/
theorem box_cox_zero_eq_log_transform (log : ℚ → ℚ) (pow : ℚ → ℚ → ℚ)
    (df : Project.Df) (columns : List String) :
    Project.box_cox_transform log pow df columns 0
      = Project.log_transform log df columns 0 := by
  unfold Project.box_cox_transform Project.log_transform
  have hfun : (fun (d : Project.Df) col =>
      if (0 : ℚ) = 0 then
        Project.mapColByName d col (Option.map (fun v => log v))
      else
        Project.mapColByName d col
          (Option.map (fun v => (pow v 0 - 1) / 0)))
      = fun d col =>
        Project.mapColByName d col (Option.map (fun v => log (v + 0))) := by
    funext d col
    rw [if_pos rfl]
    have harg : (fun v : ℚ => log v) = fun v => log (v + 0) :=
      funext fun v => by rw [add_zero]
    rw [harg]
  rw [hfun]

/-- C8: with method `'iqr'`, `remove_outliers` processes the listed columns
in order (skipping absent names), recomputing `Q1`, `Q3` and `IQR` on the
rows that survived the earlier columns, and at each column a row survives
exactly when its value lies in `[Q1 − threshold·IQR, Q3 + threshold·IQR]`. -/
theorem remove_outliers_iqr_characterization (sqrt : ℚ → ℚ) (df : Project.Df)
    (threshold : ℚ) :
    (Project.remove_outliers sqrt df [] "iqr" threshold = df) ∧
    (∀ (name : String) (rest : List String),
      Project.colIdx df name = none →
      Project.remove_outliers sqrt df (name :: rest) "iqr" threshold
        = Project.remove_outliers sqrt df rest "iqr" threshold) ∧
    (∀ (name : String) (rest : List String) (j : ℕ),
      Project.colIdx df name = some j →
      Project.remove_outliers sqrt df (name :: rest) "iqr" threshold
        = Project.remove_outliers sqrt
            { df with rows := Project.iqrStep df.rows j threshold } rest
            "iqr" threshold) ∧
    (∀ (rows : List (List Val)) (j : ℕ) (q1 q3 : ℚ),
      quantile (rows.map (fun r => r.getD j none)) (1 / 4) = some q1 →
      quantile (rows.map (fun r => r.getD j none)) (3 / 4) = some q3 →
      ∀ r, r ∈ Project.iqrStep rows j threshold ↔ r ∈ rows ∧
        ∃ v, r.getD j none = some v ∧
          q1 - threshold * (q3 - q1) ≤ v ∧ v ≤ q3 + threshold * (q3 - q1)) := by
  refine ⟨rfl, ?_, ?_, ?_⟩
  · intro name rest h
    simp [Project.remove_outliers, h]
  · intro name rest j h
    simp only [Project.remove_outliers, List.foldl_cons, h]
    rfl
  · intro rows j q1 q3 hq1 hq3 r
    simp only [Project.iqrStep, hq1, hq3, List.mem_filter, vSub, vMul, vAdd]
    refine and_congr_right fun _ => ?_
    cases hv : r.getD j none with
    | none => simp [vle]
    | some v => simp [vle, Bool.and_eq_true, decide_eq_true_eq]

/-- Witness for C8: on the column `[0, 1, 2, 3, 100]` with threshold `1.5`
(`Q1 = 1`, `Q3 = 3`, bounds `[-2, 6]`), the row holding `100` is removed. -/
theorem remove_outliers_iqr_characterization_witness :
    [(some 100 : Val)] ∈ Project.iqrStep
        [[some 0], [some 1], [some 2], [some 3], [some 100]] 0 (3 / 2) ↔
      [(some 100 : Val)] ∈
          ([[some 0], [some 1], [some 2], [some 3], [some 100]] :
            List (List Val)) ∧
        ∃ v, ([(some 100 : Val)].getD 0 none) = some v ∧
          1 - 3 / 2 * (3 - 1) ≤ v ∧ v ≤ 3 + 3 / 2 * (3 - 1) :=
  (remove_outliers_iqr_characterization (fun q => q) ⟨["a"], []⟩ (3 / 2)).2.2.2
    [[some 0], [some 1], [some 2], [some 3], [some 100]] 0 1 3
    (by norm_num [quantile, present, List.filterMap_cons, List.filterMap_nil,
      List.insertionSort, List.orderedInsert])
    (by norm_num [quantile, present, List.filterMap_cons, List.filterMap_nil,
      List.insertionSort, List.orderedInsert]; rfl)
    [some 100]

theorem getD_set_ne {α : Type} (l : List α) (k j : ℕ) (v : α) (d : α) (h : k ≠ j) :
    (l.set k v).getD j d = l.getD j d := by
  simp [List.getD_eq_getElem?_getD, List.getElem?_set_ne, h]

theorem getD_set_self {α : Type} (l : List α) (j : ℕ) (v : α) (d : α)
    (h : j < l.length) : (l.set j v).getD j d = v := by
  simp [List.getD_eq_getElem?_getD, List.getElem?_set_self, h]

namespace Project

/-- The column transform of sklearn's `MinMaxScaler` (its documented formula;
NaN is ignored when fitting and preserved by the transform):
`X_std = (X − data_min) / (data_max − data_min)` — a zero range divides by 1
instead — then `X_scaled = X_std · (range_max − range_min) + range_min`. -/
def minMaxScalerCol (range_min range_max : ℚ) (xs : List Val) : List Val :=
  match colMin xs, colMax xs with
  | some mn, some mx =>
    let scale := if mx - mn = 0 then 1 else mx - mn
    xs.map (Option.map (fun v =>
      (v - mn) / scale * (range_max - range_min) + range_min))
  | _, _ => xs

/-- `df_norm[columns] = scaler.fit_transform(df_norm[columns])`: each listed
column is fit and transformed from the original selection and assigned back
onto `df.copy()`; a listed name absent from the table is a pandas
`KeyError`. -/
def applyScaler (df : Df) (columns : List String)
    (transform : List Val → List Val) : Except String Df :=
  match columns.mapM (colIdx df) with
  | none => Except.error "KeyError"
  | some js =>
    let newCols := js.map (fun j =>
      (j, transform (df.rows.map (fun r => r.getD j none))))
    Except.ok { df with rows := df.rows.mapIdx (fun i r =>
      newCols.foldl (fun r' jc => r'.set jc.1 (jc.2.getD i none)) r) }

/-- project `normalize_data(df, columns, method='minmax', range_min=0,
range_max=1)`: picks the scaler for the method — `StandardScaler` and
`RobustScaler` are external library objects, passed in abstractly as
`zscoreScaler` and `robustScaler`; `MinMaxScaler` is `minMaxScalerCol` — and
assigns the fit-transformed listed columns back; an unknown method raises
`ValueError`.  (The fitted scaler object also returned by the source is not
modelled.) -/
def normalize_data (zscoreScaler robustScaler : List Val → List Val)
    (df : Df) (columns : List String) (method : String)
    (range_min range_max : ℚ) : Except String Df :=
  if method = "minmax" then
    applyScaler df columns (minMaxScalerCol range_min range_max)
  else if method = "zscore" then applyScaler df columns zscoreScaler
  else if method = "robust" then applyScaler df columns robustScaler
  else Except.error "Method must be minmax, zscore, or robust"

theorem foldl_set_getD_notmem (i : ℕ) (pairs : List (ℕ × List Val)) :
    ∀ (r : List Val) (j : ℕ), (∀ p ∈ pairs, p.1 ≠ j) →
      (pairs.foldl (fun r' jc => r'.set jc.1 (jc.2.getD i none)) r).getD j none
        = r.getD j none := by
  induction pairs with
  | nil =>
    intro r j _
    rfl
  | cons p rest ih =>
    intro r j hall
    rw [List.foldl_cons, ih _ j (fun q hq => hall q (List.mem_cons_of_mem p hq)),
      getD_set_ne _ _ _ _ _ (hall p (List.mem_cons_self p rest))]

/-- Writing the listed columns back: the cell at a listed position holds the
corresponding entry of that column's transform (the last write wins, and all
writes for one position carry the same transformed column). -/
theorem foldl_set_getD (i : ℕ) (pairs : List (ℕ × List Val)) :
    ∀ (r : List Val) (j : ℕ) (v : List Val),
      (∀ p ∈ pairs, p.1 = j → p.2 = v) → (∃ p ∈ pairs, p.1 = j) →
      j < r.length →
      (pairs.foldl (fun r' jc => r'.set jc.1 (jc.2.getD i none)) r).getD j none
        = v.getD i none := by
  induction pairs with
  | nil =>
    intro r j v _ hex _
    simp at hex
  | cons p rest ih =>
    intro r j v hall hex hlen
    rw [List.foldl_cons]
    by_cases hrest : ∃ q ∈ rest, q.1 = j
    · exact ih _ j v (fun q hq => hall q (List.mem_cons_of_mem p hq)) hrest
        (by simpa using hlen)
    · have hp : p.1 = j := by
        obtain ⟨q, hq, hqj⟩ := hex
        rcases List.mem_cons.mp hq with rfl | hmem
        · exact hqj
        · exact absurd ⟨q, hmem, hqj⟩ hrest
      have hval : p.2 = v := hall p (List.mem_cons_self p rest) hp
      rw [foldl_set_getD_notmem i rest _ j (fun q hq hqj => hrest ⟨q, hq, hqj⟩),
        hp, hval, getD_set_self _ _ _ _ hlen]

/-- `applyScaler` succeeds when every listed name resolves, and each row's
cell at a listed position becomes that row's entry of the transformed
column. -/
theorem applyScaler_col (df : Df) (columns : List String)
    (transform : List Val → List Val) (js : List ℕ) (j : ℕ)
    (hmap : columns.mapM (colIdx df) = some js) (hj : j ∈ js)
    (hwf : ∀ r ∈ df.rows, j < r.length) :
    ∃ df', applyScaler df columns transform = Except.ok df' ∧
      ∀ i : ℕ, ∀ r, df.rows[i]? = some r →
        ∃ r', df'.rows[i]? = some r' ∧ r'.getD j none
          = (transform (df.rows.map (fun rr => rr.getD j none))).getD i none := by
  refine ⟨{ df with rows := df.rows.mapIdx (fun i r =>
      (js.map (fun j' =>
        (j', transform (df.rows.map (fun rr => rr.getD j' none))))).foldl
        (fun r' jc => r'.set jc.1 (jc.2.getD i none)) r) }, ?_, ?_⟩
  · simp only [applyScaler, hmap]
  · intro i r hri
    refine ⟨(js.map (fun j' =>
        (j', transform (df.rows.map (fun rr => rr.getD j' none))))).foldl
        (fun r' jc => r'.set jc.1 (jc.2.getD i none)) r, ?_, ?_⟩
    · show (df.rows.mapIdx _)[i]? = _
      rw [List.getElem?_mapIdx, hri]
      rfl
    · refine foldl_set_getD i _ r j
        (transform (df.rows.map (fun rr => rr.getD j none))) ?_ ?_
        (hwf r (List.getElem?_mem hri))
      · intro p hp hpj
        obtain ⟨j', _, rfl⟩ := List.mem_map.mp hp
        simp only at hpj
        rw [hpj]
      · exact ⟨(j, transform (df.rows.map (fun rr => rr.getD j none))),
          List.mem_map.mpr ⟨j, hj, rfl⟩, rfl⟩

end Project

/-- Helper for C7, project half: `normalize_data` with `'minmax'` and range
`[0, 1]` sends each present value of a listed column into `[0, 1]`, the
column's minimum to `0` and its maximum to `1`. -/
theorem project_normalize_unit_interval
    (zscoreScaler robustScaler : List Val → List Val) (df : Project.Df)
    (columns : List String) (js : List ℕ) (j : ℕ) (mn mx : ℚ)
    (hmap : columns.mapM (Project.colIdx df) = some js) (hj : j ∈ js)
    (hwf : ∀ r ∈ df.rows, j < r.length)
    (hmin : colMin (df.rows.map (fun r => r.getD j none)) = some mn)
    (hmax : colMax (df.rows.map (fun r => r.getD j none)) = some mx)
    (hlt : mn < mx) :
    ∀ i : ℕ, ∀ r, df.rows[i]? = some r → ∀ x : ℚ, r.getD j none = some x →
      ∃ df' r' y, Project.normalize_data zscoreScaler robustScaler df columns
          "minmax" 0 1 = Except.ok df' ∧ df'.rows[i]? = some r' ∧
        r'.getD j none = some y ∧
        0 ≤ y ∧ y ≤ 1 ∧ (x = mn → y = 0) ∧ (x = mx → y = 1) := by
  intro i r hri x hx
  have hne : mx - mn ≠ 0 := sub_ne_zero.mpr hlt.ne'
  have hpos : 0 < mx - mn := sub_pos.mpr hlt
  obtain ⟨df', hok, hcol⟩ :=
    Project.applyScaler_col df columns (Project.minMaxScalerCol 0 1) js j hmap hj hwf
  have hnorm : Project.normalize_data zscoreScaler robustScaler df columns
      "minmax" 0 1 = Except.ok df' := by
    unfold Project.normalize_data
    rw [if_pos rfl]
    exact hok
  obtain ⟨r', hr', hval⟩ := hcol i r hri
  have hcoli : (df.rows.map (fun rr => rr.getD j none))[i]? = some (some x) := by
    rw [List.getElem?_map, hri]
    show some (r.getD j none) = some (some x)
    rw [hx]
  have htrans : Project.minMaxScalerCol 0 1 (df.rows.map (fun rr => rr.getD j none))
      = (df.rows.map (fun rr => rr.getD j none)).map
          (Option.map (fun v => (v - mn) / (mx - mn) * (1 - 0) + 0)) := by
    unfold Project.minMaxScalerCol
    rw [hmin, hmax]
    dsimp only
    rw [if_neg hne]
  have hxmem : x ∈ present (df.rows.map (fun rr => rr.getD j none)) :=
    List.mem_filterMap.mpr ⟨some x, List.getElem?_mem hcoli, rfl⟩
  have hxmn : mn ≤ x := (rat_min?_eq_some_iff.mp hmin).2 x hxmem
  have hxmx : x ≤ mx := (rat_max?_eq_some_iff.mp hmax).2 x hxmem
  refine ⟨df', r', (x - mn) / (mx - mn), hnorm, hr', ?_, ?_, ?_, ?_, ?_⟩
  · rw [hval, htrans, List.getD_eq_getElem?_getD, List.getElem?_map, hcoli]
    show some ((x - mn) / (mx - mn) * (1 - 0) + 0) = some ((x - mn) / (mx - mn))
    norm_num
  · exact div_nonneg (sub_nonneg.mpr hxmn) hpos.le
  · exact (div_le_one hpos).mpr (sub_le_sub_right hxmx mn)
  · intro h
    rw [h, sub_self, zero_div]
  · intro h
    rw [h, div_self hne]

/-- C7: min-max normalization maps into the unit interval.  On every listed
column whose maximum strictly exceeds its minimum, homework6
`normalize_data` (first half) and project `normalize_data` with its default
`'minmax'` method and `[0, 1]` range (second half) put every present value
of that column in `[0, 1]`, the former minimum at `0` and the former maximum
at `1`. -/
theorem normalize_data_unit_interval :
    (∀ (df : HW6.Df) (cols : List ℕ) (c : ℕ) (mn mx : ℚ),
      c ∈ cols → c < df.length →
      colMin (HW6.getCol df c) = some mn →
      colMax (HW6.getCol df c) = some mx → mn < mx →
      ∀ i : ℕ, ∀ x : ℚ, (HW6.getCol df c)[i]? = some (some x) →
        ∃ y : ℚ,
          (HW6.getCol (HW6.normalize_data df cols).1 c)[i]? = some (some y) ∧
          0 ≤ y ∧ y ≤ 1 ∧ (x = mn → y = 0) ∧ (x = mx → y = 1)) ∧
    (∀ (zscoreScaler robustScaler : List Val → List Val) (df : Project.Df)
      (columns : List String) (js : List ℕ) (j : ℕ) (mn mx : ℚ),
      columns.mapM (Project.colIdx df) = some js → j ∈ js →
      (∀ r ∈ df.rows, j < r.length) →
      colMin (df.rows.map (fun r => r.getD j none)) = some mn →
      colMax (df.rows.map (fun r => r.getD j none)) = some mx → mn < mx →
      ∀ i : ℕ, ∀ r, df.rows[i]? = some r → ∀ x : ℚ, r.getD j none = some x →
        ∃ df' r' y, Project.normalize_data zscoreScaler robustScaler df columns
            "minmax" 0 1 = Except.ok df' ∧ df'.rows[i]? = some r' ∧
          r'.getD j none = some y ∧
          0 ≤ y ∧ y ≤ 1 ∧ (x = mn → y = 0) ∧ (x = mx → y = 1)) :=
  ⟨fun df cols c mn mx hc hlen hmin hmax hlt =>
      hw6_normalize_unit_interval df cols c mn mx hc hlen hmin hmax hlt,
    fun zs rs df columns js j mn mx hmap hj hwf hmin hmax hlt =>
      project_normalize_unit_interval zs rs df columns js j mn mx hmap hj hwf
        hmin hmax hlt⟩

/-- Witness for C7: the homework6 column `[1, 3]` sends its maximum to `1`,
and the one-column project table `[[1], [3]]` does the same under
`MinMaxScaler`. -/
theorem normalize_data_unit_interval_witness :
    (∃ y : ℚ, (HW6.getCol (HW6.normalize_data [[some 1, some 3]] [0]).1 0)[1]?
        = some (some y) ∧
      0 ≤ y ∧ y ≤ 1 ∧ ((3 : ℚ) = 1 → y = 0) ∧ ((3 : ℚ) = 3 → y = 1)) ∧
    (∃ df' r' y, Project.normalize_data id id ⟨["a"], [[some 1], [some 3]]⟩
        ["a"] "minmax" 0 1 = Except.ok df' ∧ df'.rows[1]? = some r' ∧
      r'.getD 0 none = some y ∧
      0 ≤ y ∧ y ≤ 1 ∧ ((3 : ℚ) = 1 → y = 0) ∧ ((3 : ℚ) = 3 → y = 1)) :=
  ⟨normalize_data_unit_interval.1 [[some 1, some 3]] [0] 0 1 3 (by decide)
      (by decide) (by decide) (by decide) (by norm_num) 1 3 (by decide),
    normalize_data_unit_interval.2 id id ⟨["a"], [[some 1], [some 3]]⟩ ["a"]
      [0] 0 1 3 (by decide) (by decide) (by decide) (by decide) (by decide)
      (by norm_num) 1 [some 3] (by decide) 3 (by decide)⟩

namespace SpecModel

/-!
Two functions the spec names — `optimize_memory_usage` and `black_scholes` —
have no source under `src/`; they are modelled here from the spec's words.
-/

/-- Integer storage widths a column can be narrowed to. -/
inductive IntDtype
  | i8
  | i16
  | i32
  | i64
deriving DecidableEq

/-- Width of the storage type in bits. -/
def IntDtype.bits : IntDtype → ℕ
  | .i8 => 8
  | .i16 => 16
  | .i32 => 32
  | .i64 => 64

/-- Smallest value the storage type can hold. -/
def IntDtype.lo : IntDtype → ℤ
  | .i8 => -(2 ^ 7)
  | .i16 => -(2 ^ 15)
  | .i32 => -(2 ^ 31)
  | .i64 => -(2 ^ 63)

/-- Largest value the storage type can hold. -/
def IntDtype.hi : IntDtype → ℤ
  | .i8 => 2 ^ 7 - 1
  | .i16 => 2 ^ 15 - 1
  | .i32 => 2 ^ 31 - 1
  | .i64 => 2 ^ 63 - 1

/-- Every value of the column lies in the storage type's range. -/
def fits (d : IntDtype) (vs : List ℤ) : Bool :=
  vs.all (fun v => decide (d.lo ≤ v) && decide (v ≤ d.hi))

/-- A stored numeric column: its name, current storage type and values. -/
structure Column where
  name : String
  dtype : IntDtype
  values : List ℤ
deriving DecidableEq

/-- Modelled from the spec: `optimize_memory_usage` appears in the spec but
not under `src/`.  The spec says it "inspects each column's numeric range and
narrows its storage type": the narrowed type is the smallest width whose
range covers every value of the column. -/
def narrowDtype (vs : List ℤ) : IntDtype :=
  if fits .i8 vs then .i8
  else if fits .i16 vs then .i16
  else if fits .i32 vs then .i32
  else .i64

/-- Modelled from the spec (continued): the best-effort pass rewrites each
column's storage type and leaves the values alone. -/
def optimize_memory_usage (df : List Column) : List Column :=
  df.map (fun c => { c with dtype := narrowDtype c.values })

theorem fits_mono (d d' : IntDtype) (hlo : d'.lo ≤ d.lo) (hhi : d.hi ≤ d'.hi)
    (vs : List ℤ) (h : fits d vs = true) : fits d' vs = true := by
  simp only [fits, List.all_eq_true, Bool.and_eq_true, decide_eq_true_eq] at *
  intro v hv
  obtain ⟨h1, h2⟩ := h v hv
  exact ⟨le_trans hlo h1, le_trans h2 hhi⟩

theorem fits_i64 (d : IntDtype) (vs : List ℤ) (h : fits d vs = true) :
    fits IntDtype.i64 vs = true := by
  cases d with
  | i8 => exact fits_mono _ _ (by norm_num [IntDtype.lo]) (by norm_num [IntDtype.hi]) vs h
  | i16 => exact fits_mono _ _ (by norm_num [IntDtype.lo]) (by norm_num [IntDtype.hi]) vs h
  | i32 => exact fits_mono _ _ (by norm_num [IntDtype.lo]) (by norm_num [IntDtype.hi]) vs h
  | i64 => exact h

/-- The narrowed storage type still covers the whole column, as long as some
integer storage type does at all. -/
theorem narrowDtype_fits (vs : List ℤ) (d : IntDtype) (h : fits d vs = true) :
    fits (narrowDtype vs) vs = true := by
  unfold narrowDtype
  by_cases h8 : fits IntDtype.i8 vs = true
  · rw [if_pos h8]
    exact h8
  · rw [if_neg h8]
    by_cases h16 : fits IntDtype.i16 vs = true
    · rw [if_pos h16]
      exact h16
    · rw [if_neg h16]
      by_cases h32 : fits IntDtype.i32 vs = true
      · rw [if_pos h32]
        exact h32
      · rw [if_neg h32]
        exact fits_i64 d vs h

/-- The narrowed storage type is no wider than any type that fits. -/
theorem narrowDtype_minimal (vs : List ℤ) (d : IntDtype) (h : fits d vs = true) :
    (narrowDtype vs).bits ≤ d.bits := by
  unfold narrowDtype
  cases d with
  | i8 =>
    rw [if_pos h]
  | i16 =>
    by_cases h8 : fits IntDtype.i8 vs = true
    · rw [if_pos h8]
      norm_num [IntDtype.bits]
    · rw [if_neg h8, if_pos h]
  | i32 =>
    by_cases h8 : fits IntDtype.i8 vs = true
    · rw [if_pos h8]
      norm_num [IntDtype.bits]
    · rw [if_neg h8]
      by_cases h16 : fits IntDtype.i16 vs = true
      · rw [if_pos h16]
        norm_num [IntDtype.bits]
      · rw [if_neg h16, if_pos h]
  | i64 =>
    by_cases h8 : fits IntDtype.i8 vs = true
    · rw [if_pos h8]
      norm_num [IntDtype.bits]
    · rw [if_neg h8]
      by_cases h16 : fits IntDtype.i16 vs = true
      · rw [if_pos h16]
        norm_num [IntDtype.bits]
      · rw [if_neg h16]
        by_cases h32 : fits IntDtype.i32 vs = true
        · rw [if_pos h32]
          norm_num [IntDtype.bits]
        · rw [if_neg h32]

/-- Modelled from the spec: `black_scholes` appears in the spec but not under
`src/`.  The spec calls it "a well-known closed-form formula with ad hoc
exception suppression".  The raw closed form `S·N(d1) − K·e^{−rT}·N(d2)` is
embedded over ℚ with the transcendental pieces — `log`, `sqrt`, `exp` and the
standard normal CDF `ncdf` — passed in as arguments; a zero `sigma·√T`
denominator raises `ZeroDivisionError`. -/
def black_scholes_raw (log sqrt exp ncdf : ℚ → ℚ) (S K T r sigma : ℚ) :
    Except String ℚ :=
  if sigma * sqrt T = 0 then Except.error "ZeroDivisionError"
  else
    let d1 := (log (S / K) + (r + sigma ^ 2 / 2) * T) / (sigma * sqrt T)
    let d2 := d1 - sigma * sqrt T
    Except.ok (S * ncdf d1 - K * exp (-(r * T)) * ncdf d2)

/-- Modelled from the spec (continued): `black_scholes` wraps the raw
computation in a `try/except` that swallows the exception, returning no value
instead of propagating it. -/
def black_scholes (log sqrt exp ncdf : ℚ → ℚ) (S K T r sigma : ℚ) : Option ℚ :=
  match black_scholes_raw log sqrt exp ncdf S K T r sigma with
  | Except.ok v => some v
  | Except.error _ => none

end SpecModel

/-- C4 (spec-modelled): `optimize_memory_usage` keeps every column's name and
values and narrows its storage type: the new type still covers the column's
numeric range and is no wider than any integer type that covers it. -/
theorem optimize_memory_usage_narrows (df : List SpecModel.Column) :
    (SpecModel.optimize_memory_usage df).length = df.length ∧
    ∀ i : ℕ, ∀ col, df[i]? = some col →
      SpecModel.fits col.dtype col.values = true →
      ∃ col', (SpecModel.optimize_memory_usage df)[i]? = some col' ∧
        col'.values = col.values ∧ col'.name = col.name ∧
        SpecModel.fits col'.dtype col'.values = true ∧
        ∀ d : SpecModel.IntDtype, SpecModel.fits d col.values = true →
          col'.dtype.bits ≤ d.bits := by
  refine ⟨by simp [SpecModel.optimize_memory_usage], ?_⟩
  intro i col hcol hfits
  refine ⟨{ col with dtype := SpecModel.narrowDtype col.values }, ?_, rfl, rfl,
    ?_, ?_⟩
  · rw [SpecModel.optimize_memory_usage, List.getElem?_map, hcol]
    rfl
  · exact SpecModel.narrowDtype_fits col.values col.dtype hfits
  · intro d hd
    exact SpecModel.narrowDtype_minimal col.values d hd

/-- Witness for C4: an `int64` column with values `{0, 300}` narrows to a
type of at most 16 bits that still holds both values. -/
theorem optimize_memory_usage_narrows_witness :
    ∃ col', (SpecModel.optimize_memory_usage
        [⟨"a", SpecModel.IntDtype.i64, [0, 300]⟩])[0]? = some col' ∧
      col'.values = [0, 300] ∧ col'.name = "a" ∧
      SpecModel.fits col'.dtype col'.values = true ∧
      ∀ d : SpecModel.IntDtype, SpecModel.fits d [0, 300] = true →
        col'.dtype.bits ≤ d.bits :=
  (optimize_memory_usage_narrows [⟨"a", SpecModel.IntDtype.i64, [0, 300]⟩]).2
    0 ⟨"a", SpecModel.IntDtype.i64, [0, 300]⟩ (by decide) (by decide)

/-- C5 (spec-modelled): `black_scholes` always returns — on a degenerate
input with `sigma·√T = 0` the `ZeroDivisionError` is suppressed into an
empty result rather than propagated, and on every other input the result is
the closed-form Black–Scholes price `S·N(d1) − K·e^{−rT}·N(d2)`. -/
theorem black_scholes_closed_form (log sqrt exp ncdf : ℚ → ℚ)
    (S K T r sigma : ℚ) :
    SpecModel.black_scholes log sqrt exp ncdf S K T r sigma =
      if sigma * sqrt T = 0 then none
      else some (S * ncdf ((log (S / K) + (r + sigma ^ 2 / 2) * T)
          / (sigma * sqrt T))
        - K * exp (-(r * T)) * ncdf ((log (S / K) + (r + sigma ^ 2 / 2) * T)
            / (sigma * sqrt T) - sigma * sqrt T)) := by
  unfold SpecModel.black_scholes SpecModel.black_scholes_raw
  by_cases h : sigma * sqrt T = 0
  · rw [if_pos h, if_pos h]
  · rw [if_neg h, if_neg h]

end Bootcamp
